import Mathlib

/-!
Verification of the coredns-unifi-names plugin core (names.go).

Go strings are modeled as `List Char`; Go's uint32 arithmetic is modeled on
`Nat` with explicit reduction modulo 2^32.  Fallible upstream calls are
modeled as `Except` values passed in as parameters, since the upstream
controller is an external collaborator.
-/

/-- Models the ASCII case mapping performed by strings.ToLower and the folding
of strings.EqualFold.  (Full Unicode case mapping differs only on characters
that can never survive the sanitizer's allow-list nor appear in configured
domains, which are plain ASCII.) -/
def goToLower (c : Char) : Char :=
  if 'A' ≤ c ∧ c ≤ 'Z' then Char.ofNat (c.toNat + 32) else c

/-- The allow-list literal of sanitizeName (names.go:241): lowercase letters,
the digits 1-7 and 9 (deliberately excluding 0 and 8), and the dash. -/
def allowedRunes : List Char := ("abcdefghijklmnopqrstuvwxyz12345679-".data)

/-- Models isAllowedRune (names.go:231-238): a linear scan of the allow-list. -/
def isAllowedRune (allowed : List Char) (r : Char) : Bool :=
  allowed.any (fun a => decide (a = r))

/-- One iteration of the builder loop in sanitizeName (names.go:250-256):
an allowed rune is kept, everything else becomes a dash. -/
def replaceDisallowed (c : Char) : Char :=
  if isAllowedRune allowedRunes c then c else '-'

/-- Splitting a string at a separator, keeping empty fragments.  Together with
the nonempty filter below this models strings.FieldsFunc (names.go:259-261),
whose result is exactly the nonempty fragments between separators.  It is also
reused for the dotted-quad split of the IP parser. -/
def splitSep (sep : Char) : List Char → List (List Char)
  | [] => [[]]
  | c :: cs =>
    match splitSep sep cs with
    | [] => [[]]
    | f :: rest => if c = sep then [] :: f :: rest else (c :: f) :: rest

/-- Models strings.Join(fields, "-") (names.go:259). -/
def joinDash : List (List Char) → List Char
  | [] => []
  | [f] => f
  | f :: g :: rest => f ++ '-' :: joinDash (g :: rest)

/-- Models sanitizeName (names.go:240-262): empty input stays empty; otherwise
lowercase, replace disallowed runes by '-', then split on '-', discard empty
fragments and rejoin with single dashes. -/
def sanitizeName (s : List Char) : List Char :=
  if s = [] then []
  else
    joinDash (((splitSep '-' ((s.map goToLower).map replaceDisallowed)).filter
      (fun f => !f.isEmpty)))

/-- Boolean statement that a character list has no two adjacent dashes,
i.e. no "--" substring. -/
def noDoubleDash : List Char → Bool
  | a :: b :: rest => (!(decide (a = '-') && decide (b = '-'))) && noDoubleDash (b :: rest)
  | _ => true

theorem splitSep_ne_nil (sep : Char) (l : List Char) : splitSep sep l ≠ [] := by
  cases l with
  | nil => simp [splitSep]
  | cons c cs =>
    simp only [splitSep]
    cases h : splitSep sep cs with
    | nil => simp
    | cons f rest =>
      by_cases hc : c = sep <;> simp [hc]

theorem splitSep_sound (sep : Char) :
    ∀ l : List Char, ∀ f ∈ splitSep sep l, ∀ c ∈ f, c ≠ sep ∧ c ∈ l := by
  intro l
  induction l with
  | nil => intro f hf c hc; simp [splitSep] at hf; subst hf; simp at hc
  | cons a cs ih =>
    intro f hf c hc
    simp only [splitSep] at hf
    cases h : splitSep sep cs with
    | nil => exact absurd h (splitSep_ne_nil sep cs)
    | cons g rest =>
      rw [h] at hf
      by_cases ha : a = sep
      · simp only [ha, if_pos rfl] at hf
        rcases List.mem_cons.mp hf with h1 | h1
        · subst h1; simp at hc
        · have := ih f (by rw [h]; exact h1) c hc
          exact ⟨this.1, List.mem_cons_of_mem _ this.2⟩
      · simp only [if_neg ha] at hf
        rcases List.mem_cons.mp hf with h1 | h1
        · subst h1
          rcases List.mem_cons.mp hc with h2 | h2
          · subst h2; exact ⟨ha, List.mem_cons_self _ _⟩
          · have := ih g (by rw [h]; exact List.mem_cons_self _ _) c h2
            exact ⟨this.1, List.mem_cons_of_mem _ this.2⟩
        · have := ih f (by rw [h]; exact List.mem_cons_of_mem _ h1) c hc
          exact ⟨this.1, List.mem_cons_of_mem _ this.2⟩

theorem splitSep_sepfree (sep : Char) (l : List Char) (h : ∀ c ∈ l, c ≠ sep) :
    splitSep sep l = [l] := by
  induction l with
  | nil => rfl
  | cons a cs ih =>
    have ha : a ≠ sep := h a (List.mem_cons_self _ _)
    have hcs : splitSep sep cs = [cs] := ih (fun c hc => h c (List.mem_cons_of_mem _ hc))
    simp only [splitSep, hcs, if_neg ha]

theorem splitSep_append_sepfree (sep : Char) (f : List Char) (hf : ∀ c ∈ f, c ≠ sep) :
    ∀ l h rest, splitSep sep l = h :: rest → splitSep sep (f ++ l) = (f ++ h) :: rest := by
  induction f with
  | nil => intro l h rest hl; simpa using hl
  | cons a f2 ih =>
    intro l h rest hl
    have ha : a ≠ sep := hf a (List.mem_cons_self _ _)
    have h2 := ih (fun c hc => hf c (List.mem_cons_of_mem _ hc)) l h rest hl
    simp only [List.cons_append, splitSep, List.append_eq, h2, if_neg ha]

theorem splitSep_sep_cons (sep : Char) (l : List Char) :
    splitSep sep (sep :: l) = [] :: splitSep sep l := by
  simp only [splitSep]
  cases h : splitSep sep l with
  | nil => exact absurd h (splitSep_ne_nil sep l)
  | cons f rest => simp

theorem joinDash_ne_nil (F : List (List Char)) (hne : ∀ f ∈ F, f ≠ []) (h : F ≠ []) :
    joinDash F ≠ [] := by
  cases F with
  | nil => exact absurd rfl h
  | cons f rest =>
    cases rest with
    | nil => exact hne f (List.mem_cons_self _ _)
    | cons g r2 =>
      simp only [joinDash]
      intro hc
      exact hne f (List.mem_cons_self _ _) (List.append_eq_nil.mp hc).1

theorem mem_joinDash (F : List (List Char)) (c : Char) (hc : c ∈ joinDash F) :
    c = '-' ∨ ∃ f ∈ F, c ∈ f := by
  induction F with
  | nil => simp [joinDash] at hc
  | cons f rest ih =>
    cases rest with
    | nil =>
      simp only [joinDash] at hc
      exact Or.inr ⟨f, List.mem_cons_self _ _, hc⟩
    | cons g r2 =>
      simp only [joinDash] at hc
      rcases List.mem_append.mp hc with h1 | h1
      · exact Or.inr ⟨f, List.mem_cons_self _ _, h1⟩
      · rcases List.mem_cons.mp h1 with h2 | h2
        · exact Or.inl h2
        · rcases ih h2 with h3 | ⟨f2, hf2, hcf2⟩
          · exact Or.inl h3
          · exact Or.inr ⟨f2, List.mem_cons_of_mem _ hf2, hcf2⟩

theorem noDoubleDash_of_dashfree (l : List Char) (h : ∀ c ∈ l, c ≠ '-') :
    noDoubleDash l = true := by
  induction l with
  | nil => rfl
  | cons a t ih =>
    cases t with
    | nil => rfl
    | cons b r =>
      have ha : a ≠ '-' := h a (List.mem_cons_self _ _)
      have ht := ih (fun c hc => h c (List.mem_cons_of_mem _ hc))
      simp [noDoubleDash, ha, ht]

theorem noDoubleDash_append (xs ys : List Char) (hxs : ∀ c ∈ xs, c ≠ '-')
    (hys : noDoubleDash ys = true) : noDoubleDash (xs ++ ys) = true := by
  induction xs with
  | nil => simpa using hys
  | cons a t ih =>
    have ha : a ≠ '-' := hxs a (List.mem_cons_self _ _)
    have ht := ih (fun c hc => hxs c (List.mem_cons_of_mem _ hc))
    cases t with
    | nil =>
      cases ys with
      | nil => rfl
      | cons b r => simp [noDoubleDash, ha, hys]
    | cons b r =>
      simp only [List.cons_append] at ht ⊢
      simp only [noDoubleDash, ha, List.cons_append]
      simpa [ha] using ht

theorem getLast?_dashfree (l : List Char) (h : ∀ c ∈ l, c ≠ '-') :
    l.getLast? ≠ some '-' := by
  intro hc
  obtain ⟨hne, heq⟩ := List.mem_getLast?_eq_getLast (Option.mem_def.mpr hc)
  exact h _ (heq ▸ List.getLast_mem hne) heq.symm

theorem joinDash_shape (F : List (List Char))
    (h : ∀ f ∈ F, f ≠ [] ∧ ∀ c ∈ f, c ≠ '-') :
    noDoubleDash (joinDash F) = true
    ∧ (joinDash F).head? ≠ some '-'
    ∧ (joinDash F).getLast? ≠ some '-' := by
  induction F with
  | nil => exact ⟨rfl, by simp [joinDash], by simp [joinDash]⟩
  | cons f rest ih =>
    obtain ⟨hfne, hfdf⟩ := h f (List.mem_cons_self _ _)
    cases rest with
    | nil =>
      refine ⟨noDoubleDash_of_dashfree f hfdf, ?_, ?_⟩
      · show (joinDash [f]).head? ≠ some '-'
        cases f with
        | nil => exact absurd rfl hfne
        | cons a t =>
          simp only [joinDash, List.head?_cons, ne_eq, Option.some.injEq]
          exact hfdf a (List.mem_cons_self _ _)
      · show (joinDash [f]).getLast? ≠ some '-'
        simpa [joinDash] using getLast?_dashfree f hfdf
    | cons g r2 =>
      have ih2 := ih (fun f2 hf2 => h f2 (List.mem_cons_of_mem _ hf2))
      have hJne : joinDash (g :: r2) ≠ [] :=
        joinDash_ne_nil _ (fun f2 hf2 => (h f2 (List.mem_cons_of_mem _ hf2)).1) (by simp)
      refine ⟨?_, ?_, ?_⟩
      · show noDoubleDash (joinDash (f :: g :: r2)) = true
        simp only [joinDash]
        apply noDoubleDash_append f _ hfdf
        cases hJ : joinDash (g :: r2) with
        | nil => rfl
        | cons b t =>
          have hbne : b ≠ '-' := by
            have hh := ih2.2.1
            rw [hJ] at hh
            simpa using hh
          have hnd := ih2.1
          rw [hJ] at hnd
          simp [noDoubleDash, hbne, hnd]
      · simp only [joinDash]
        cases f with
        | nil => exact absurd rfl hfne
        | cons a t =>
          simp only [List.cons_append, List.head?_cons, ne_eq, Option.some.injEq]
          exact hfdf a (List.mem_cons_self _ _)
      · simp only [joinDash]
        rw [List.getLast?_append_of_ne_nil _ (by simp)]
        cases hJ : joinDash (g :: r2) with
        | nil => exact absurd hJ hJne
        | cons b t =>
          rw [List.getLast?_cons_cons]
          have hh := ih2.2.2
          rw [hJ] at hh
          exact hh

theorem splitSep_joinDash (F : List (List Char))
    (h : ∀ f ∈ F, f ≠ [] ∧ ∀ c ∈ f, c ≠ '-') :
    (splitSep '-' (joinDash F)).filter (fun f => !f.isEmpty) = F := by
  induction F with
  | nil => rfl
  | cons f rest ih =>
    obtain ⟨hfne, hfdf⟩ := h f (List.mem_cons_self _ _)
    have hfb : (!f.isEmpty) = true := by
      cases f with
      | nil => exact absurd rfl hfne
      | cons a t => rfl
    cases rest with
    | nil =>
      show (splitSep '-' f).filter (fun f => !f.isEmpty) = [f]
      rw [splitSep_sepfree '-' f hfdf, List.filter_cons, if_pos hfb]
      rfl
    | cons g r2 =>
      have ih2 := ih (fun f2 hf2 => h f2 (List.mem_cons_of_mem _ hf2))
      show (splitSep '-' (f ++ '-' :: joinDash (g :: r2))).filter (fun f => !f.isEmpty)
          = f :: g :: r2
      rw [splitSep_append_sepfree '-' f hfdf ('-' :: joinDash (g :: r2)) []
        (splitSep '-' (joinDash (g :: r2))) (splitSep_sep_cons '-' (joinDash (g :: r2)))]
      rw [List.append_nil, List.filter_cons, if_pos hfb, ih2]

theorem allowed_fixed : ∀ a ∈ allowedRunes, goToLower a = a ∧ replaceDisallowed a = a := by
  decide

theorem mem_allowed_of_isAllowed (c : Char) (h : isAllowedRune allowedRunes c = true) :
    c ∈ allowedRunes := by
  obtain ⟨a, ha, hac⟩ := List.any_eq_true.mp h
  exact (of_decide_eq_true hac) ▸ ha

theorem replaceDisallowed_mem (c : Char) : replaceDisallowed c ∈ allowedRunes := by
  rw [replaceDisallowed]
  split
  next h => exact mem_allowed_of_isAllowed c h
  next h => decide

theorem sanitizeName_mem_allowed (s : List Char) :
    ∀ c ∈ sanitizeName s, c ∈ allowedRunes := by
  intro c hc
  rw [sanitizeName] at hc
  by_cases hs : s = []
  · rw [if_pos hs] at hc; simp at hc
  · rw [if_neg hs] at hc
    rcases mem_joinDash _ c hc with h1 | ⟨f, hf, hcf⟩
    · subst h1; decide
    · have hf2 := List.mem_filter.mp hf
      have hsound := splitSep_sound '-' _ f hf2.1 c hcf
      obtain ⟨b, _, hbc⟩ := List.mem_map.mp hsound.2
      exact hbc ▸ replaceDisallowed_mem b

theorem sanitizeName_fields_ok (s : List Char) :
    ∀ f ∈ (splitSep '-' ((s.map goToLower).map replaceDisallowed)).filter
      (fun f => !f.isEmpty), f ≠ [] ∧ ∀ c ∈ f, c ≠ '-' := by
  intro f hf
  have hf2 := List.mem_filter.mp hf
  refine ⟨?_, ?_⟩
  · intro hnil; subst hnil; simp at hf2
  · intro c hc
    exact (splitSep_sound '-' _ f hf2.1 c hc).1

theorem map_fix_of_mem {α : Type} (l : List α) (g : α → α) (h : ∀ c ∈ l, g c = c) :
    l.map g = l := by
  induction l with
  | nil => rfl
  | cons a t ih =>
    simp [h a (List.mem_cons_self _ _), ih (fun c hc => h c (List.mem_cons_of_mem _ hc))]

/-- C4: every output of sanitizeName contains only characters of [a-z0-9-],
never contains the digits '0' or '8' (the allow-list holds only a-z, 1-7, 9
and the dash), has no "--" substring, and neither starts nor ends with '-'. -/
theorem sanitizeName_charset (s : List Char) :
    (sanitizeName s).all (fun c => decide ((('a' ≤ c ∧ c ≤ 'z')
        ∨ ('1' ≤ c ∧ c ≤ '7') ∨ c = '9' ∨ c = '-') ∧ c ≠ '0' ∧ c ≠ '8')) = true
  ∧ noDoubleDash (sanitizeName s) = true
  ∧ decide ((sanitizeName s).head? = some '-') = false
  ∧ decide ((sanitizeName s).getLast? = some '-') = false := by
  have hall : ∀ a ∈ allowedRunes, ((('a' ≤ a ∧ a ≤ 'z')
      ∨ ('1' ≤ a ∧ a ≤ '7') ∨ a = '9' ∨ a = '-') ∧ a ≠ '0' ∧ a ≠ '8') := by decide
  refine ⟨?_, ?_⟩
  · rw [List.all_eq_true]
    intro c hc
    exact decide_eq_true (hall c (sanitizeName_mem_allowed s c hc))
  · by_cases hs : s = []
    · subst hs; exact ⟨rfl, by decide, by decide⟩
    · have hshape := joinDash_shape _ (sanitizeName_fields_ok s)
      rw [sanitizeName, if_neg hs]
      exact ⟨hshape.1, decide_eq_false hshape.2.1, decide_eq_false hshape.2.2⟩

theorem sanitizeName_of_fixed (t : List Char) (hne : t ≠ [])
    (h1 : t.map goToLower = t) (h2 : t.map replaceDisallowed = t) :
    sanitizeName t = joinDash ((splitSep '-' t).filter (fun f => !f.isEmpty)) := by
  simp only [sanitizeName]
  rw [if_neg hne, h1, h2]

/-- C5: sanitizeName is idempotent: sanitizing an already sanitized string
changes nothing. -/
theorem sanitizeName_idem (s : List Char) : sanitizeName (sanitizeName s) = sanitizeName s := by
  by_cases hs : s = []
  · subst hs; rfl
  · by_cases ho : sanitizeName s = []
    · rw [ho]; rfl
    · have hmem := sanitizeName_mem_allowed s
      have h1 : (sanitizeName s).map goToLower = sanitizeName s :=
        map_fix_of_mem _ _ (fun c hc => (allowed_fixed c (hmem c hc)).1)
      have h2 : (sanitizeName s).map replaceDisallowed = sanitizeName s :=
        map_fix_of_mem _ _ (fun c hc => (allowed_fixed c (hmem c hc)).2)
      have hform : sanitizeName s = joinDash ((splitSep '-'
          ((s.map goToLower).map replaceDisallowed)).filter (fun f => !f.isEmpty)) := by
        simp only [sanitizeName]
        rw [if_neg hs]
      rw [sanitizeName_of_fixed _ ho h1 h2, hform,
        splitSep_joinDash _ (sanitizeName_fields_ok s)]

/-- Parsed IP value (net.IP).  The IPv4 case records the four dotted-quad
bytes; IPv6 values are kept abstract as their raw text, since only the
IPv4 path and the parse-failure path are exercised by the claims. -/
inductive IPAddr
  | v4 (a b c d : Nat)
  | v6 (raw : List Char)
  deriving DecidableEq

/-- Models the ip.To4() != nil family test (names.go:211). -/
def isV4 : IPAddr → Bool
  | .v4 _ _ _ _ => true
  | .v6 _ => false

/-- Decimal value of a digit string. -/
def decVal (l : List Char) : Nat :=
  l.foldl (fun n c => n * 10 + (c.toNat - ('0').toNat)) 0

/-- One dotted-quad field accepted by net.ParseIP (Go 1.17+): nonempty, all
digits, no leading zero, value at most 255. -/
def parseV4Field (f : List Char) : Option Nat :=
  if f = [] then none
  else if ¬ f.all (fun c => c.isDigit) then none
  else if f.length > 1 ∧ f.head? = some ('0') then none
  else if decVal f ≤ 255 then some (decVal f) else none

/-- Models net.ParseIP (names.go:189): the first '.' or ':' encountered
selects the address family; a dotted quad must have exactly four valid
fields; strings with neither separator do not parse.  The IPv6 grammar is
abstracted: a string whose first separator is ':' is kept as an opaque
parsed IPv6 value (no claim exercises IPv6 contents). -/
def parseIP (s : List Char) : Option IPAddr :=
  match s.find? (fun c => decide (c = '.') || decide (c = ':')) with
  | some c =>
    if c = '.' then
      match (splitSep '.' s).map parseV4Field with
      | [some a, some b, some c4, some d] => some (.v4 a b c4 d)
      | _ => none
    else some (.v6 s)
  | none => none

/-- Models dns.RR_Header, restricted to the fields names.go reads or writes. -/
structure RR_Header where
  Name : List Char
  Rrtype : Nat
  Class : Nat
  Ttl : Nat
  Rdlength : Nat
  deriving DecidableEq

/-- Joint model of dns.A and dns.AAAA: each is a header plus one address
field (A resp. AAAA); the two Go types are structurally identical and are
distinguished here by Hdr.Rrtype exactly as the code sets it. -/
structure DnsRR where
  Hdr : RR_Header
  addr : IPAddr
  deriving DecidableEq

/-- dns.ClassINET. -/
def classINET : Nat := 1

/-- dns.TypeA. -/
def typeA : Nat := 1

/-- dns.TypeAAAA. -/
def typeAAAA : Nat := 28

/-- One DNS question (dns.Question): name, type, class. -/
structure Question where
  Name : List Char
  Qtype : Nat
  Qclass : Nat
  deriving DecidableEq

/-- An incoming DNS message, restricted to what resolve reads. -/
structure Msg where
  Question : List Question
  deriving DecidableEq

/-- The plugin configuration struct (type config).  Its declaration lives in
the plugin's setup code, which is not under src/; the fields are
reconstructed from their uses in names.go.  Modelled from the spec: the
network-to-domain values are stored in fully qualified form with a trailing
dot, so that the record names built as dns_name + "." + domain
(names.go:204) compare equal to the FQDN question names of incoming queries
(spec scenarios 1-4). -/
structure config where
  TTL : Nat
  Networks : List (List Char × List Char)
  UseNameAsHostname : Bool
  Debug : Bool
  deriving DecidableEq

/-- Models the unifinames plugin struct (names.go:24-33).  The mutex, the
handler chain and the metrics are concurrency or framework artifacts with no
record content; the haveRoutine flag is covered by the separate interleaving
model below. -/
structure unifinames where
  Config : config
  aClients : List DnsRR
  aaaaClients : List DnsRR
  lastUpdate : Nat
  IsReady : Bool
  deriving DecidableEq

/-- Models strings.HasSuffix. -/
def hasSuffix (s suffix : List Char) : Bool :=
  List.isSuffixOf suffix s

/-- Models shouldHandle (names.go:127-134): some configured domain is a
suffix of the (already lowercased) question name.  Go map iteration order is
arbitrary, but only existence is observable here. -/
def shouldHandle (p : unifinames) (name : List Char) : Bool :=
  p.Config.Networks.any (fun kv => hasSuffix name kv.2)

/-- Models strings.EqualFold, restricted to ASCII simple folding (record
names and question names are ASCII DNS names). -/
def equalFold (a b : List Char) : Bool :=
  decide (a.map goToLower = b.map goToLower)

/-- Models the uint32 subtraction of names.go:92/104: the difference of the
configured TTL and the truncated whole seconds since the last update,
wrapping modulo 2^32 (4294967296) as Go uint32 arithmetic does. -/
def u32sub (a b : Nat) : Nat :=
  (a % 4294967296 + 4294967296 - b % 4294967296) % 4294967296

/-- Models one scan of a client list (names.go:90-96 and 102-108): Go's
range-by-value loop binds a copy of each element, so writing the adjusted
TTL mutates only the copy that is appended to the answers; the loop breaks
at the first case-insensitive name match.  Returns the answers contributed
and the list as it stands after the loop. -/
def scanClients (clients : List DnsRR) (qname : List Char) (newTtl : Nat) :
    List DnsRR × List DnsRR :=
  match clients with
  | [] => ([], [])
  | client :: rest =>
    if equalFold client.Hdr.Name qname then
      ([{ client with Hdr := { client.Hdr with Ttl := newTtl } }], client :: rest)
    else
      let res := scanClients rest qname newTtl
      (res.1, client :: res.2)

/-- The body of resolve's per-question loop (names.go:80-112): non-Internet
classes are skipped; A and AAAA questions whose lowercased name lies under a
served suffix are scanned against the corresponding cached list with the
age-adjusted TTL; anything else contributes no answer. -/
def resolveQuestion (p : unifinames) (now : Nat) (q : Question) :
    List DnsRR × unifinames :=
  if q.Qclass ≠ classINET then ([], p)
  else if q.Qtype = typeA then
    (if shouldHandle p (q.Name.map goToLower) then
      let res := scanClients p.aClients q.Name (u32sub p.Config.TTL (now - p.lastUpdate))
      (res.1, { p with aClients := res.2 })
    else ([], p))
  else if q.Qtype = typeAAAA then
    (if shouldHandle p (q.Name.map goToLower) then
      let res := scanClients p.aaaaClients q.Name (u32sub p.Config.TTL (now - p.lastUpdate))
      (res.1, { p with aaaaClients := res.2 })
    else ([], p))
  else ([], p)

/-- One iteration of resolve's question loop: append this question's
answers to those already collected and carry the state along. -/
def resolveStep (now : Nat) (acc : List DnsRR × unifinames) (q : Question) :
    List DnsRR × unifinames :=
  let out := resolveQuestion acc.2 now q
  (acc.1 ++ out.1, out.2)

/-- Models resolve (names.go:73-125): no questions means unanswered; the
collected answers are attached to the reply and the return reports whether
any answer was found.  The final component is the plugin state as left
behind by the loops (the cache handle). -/
def resolveGo (p : unifinames) (now : Nat) (r : Msg) : Bool × List DnsRR × unifinames :=
  if r.Question.length ≤ 0 then (false, [], p)
  else
    let res := r.Question.foldl (resolveStep now) (([] : List DnsRR), p)
    if res.1.length > 0 then (true, res.1, res.2) else (false, res.1, res.2)

/-- One upstream client tuple (the unifi client fields names.go:166-197 reads). -/
structure ClientEntry where
  Name : List Char
  Hostname : List Char
  IP : List Char
  Network : List Char
  deriving DecidableEq

/-- Opaque upstream site handle (only passed through to the client listing). -/
abbrev Site := List Char

/-- Upstream error values (the annotated errors of names.go:150/155/160),
kept abstract as their message text. -/
abbrev FetchErr := List Char

/-- Models the Networks map lookup p.Config.Networks[key] (names.go:194). -/
def lookupNetwork : List (List Char × List Char) → List Char → Option (List Char)
  | [], _ => none
  | kv :: rest, k => if kv.1 = k then some kv.2 else lookupNetwork rest k

/-- Modelled from the spec: the FQDN-validity test of names.go:185 is
delegated to an external library (dns_val.IsFQDN); per the spec it detects
names that are already fully qualified.  A name qualifies only if it
contains a dot; sanitized labels never do.  The universal claims keep the
check as an opaque parameter fq instead. -/
def isFQDNCheck (s : List Char) : Bool :=
  s.any (fun c => decide (c = '.'))

/-- The per-entry body of the getClients loop (names.go:166-224): pick the
display name by the toggle, skip on empty selected field, empty sanitized
name, already-qualified name, unparseable IP or unmapped network; otherwise
append one A or AAAA record (TTL field left 0; resolve overwrites it on a
copy at query time). -/
def processEntry (fq : List Char → Bool) (p : unifinames) (entry : ClientEntry) :
    unifinames :=
  let dns_name := if p.Config.UseNameAsHostname
    then (sanitizeName entry.Name).map goToLower
    else (sanitizeName entry.Hostname).map goToLower
  if p.Config.UseNameAsHostname ∧ entry.Name = [] then p
  else if ¬ p.Config.UseNameAsHostname ∧ entry.Hostname = [] then p
  else if dns_name = [] then p
  else if fq dns_name then p
  else
    match parseIP entry.IP with
    | none => p
    | some ip =>
      match lookupNetwork p.Config.Networks (entry.Network.map goToLower) with
      | none => p
      | some domain =>
        let hdr : RR_Header :=
          { Name := dns_name ++ '.' :: domain, Rrtype := 0, Class := classINET,
            Ttl := 0, Rdlength := 0 }
        if isV4 ip then
          { p with aClients := p.aClients ++ [{ Hdr := { hdr with Rrtype := typeA }, addr := ip }] }
        else
          { p with aaaaClients := p.aaaaClients ++ [{ Hdr := { hdr with Rrtype := typeAAAA }, addr := ip }] }

/-- Models getClients (names.go:138-229).  The three upstream steps (client
construction, site listing, client listing) are external collaborators and
are passed in as their outcomes; any failure returns the annotated error
before the cached lists are touched.  On success the lists are reset and
rebuilt from the fetched entries. -/
def getClientsGo (fq : List Char → Bool) (p : unifinames)
    (uniRes : Except FetchErr Unit) (sitesRes : Except FetchErr (List Site))
    (clientsRes : List Site → Except FetchErr (List ClientEntry)) :
    unifinames × Option FetchErr :=
  match uniRes with
  | .error e => (p, some e)
  | .ok _ =>
    match sitesRes with
    | .error e => (p, some e)
    | .ok sites =>
      match clientsRes sites with
      | .error e => (p, some e)
      | .ok clients =>
        (clients.foldl (processEntry fq) { p with aClients := [], aaaaClients := [] }, none)

/-- Models one attempt of the background update closure (names.go:40-53):
on failure it returns after logging, leaving lastUpdate alone; on success it
installs the rebuilt lists and then sets lastUpdate to the current time. -/
def updateAttempt (fq : List Char → Bool) (p : unifinames)
    (uniRes : Except FetchErr Unit) (sitesRes : Except FetchErr (List Site))
    (clientsRes : List Site → Except FetchErr (List ClientEntry)) (now : Nat) :
    unifinames :=
  match getClientsGo fq p uniRes sitesRes clientsRes with
  | (p1, some _) => p1
  | (p1, none) => { p1 with lastUpdate := now }

/-- Models Ready (names.go:264-281), the eager readiness path: when not yet
ready it performs one refresh attempt; the error branch only logs and marks
IsReady, and the code that follows runs unconditionally, setting lastUpdate
to the current time and IsReady to true whether or not the fetch failed. -/
def Ready (fq : List Char → Bool) (p : unifinames)
    (uniRes : Except FetchErr Unit) (sitesRes : Except FetchErr (List Site))
    (clientsRes : List Site → Except FetchErr (List ClientEntry)) (now : Nat) :
    unifinames × Bool :=
  if p.IsReady = false then
    let res := getClientsGo fq p uniRes sitesRes clientsRes
    let p1 := if res.2.isSome then { res.1 with IsReady := true } else res.1
    let p2 := { p1 with lastUpdate := now, IsReady := true }
    (p2, p2.IsReady)
  else
    (p, p.IsReady)

/-- Program counter of one query goroutine inside the startup guard of
ServeDNS (names.go:37-60): about to Load the flag, about to Store it and
launch the refresh loop, or past the guard. -/
inductive GuardPC
  | check
  | store
  | past
  deriving DecidableEq

/-- Shared state of the startup guard for two concurrent first queries:
the atomic haveRoutine flag, the number of refresh loops launched so far,
and each thread's position.  Load and Store are the individually atomic
steps of go.uber.org/atomic; the Store and the go statement that follows it
are merged into one step, which only reduces the set of interleavings. -/
structure GuardState where
  haveRoutine : Bool
  loops : Nat
  pc0 : GuardPC
  pc1 : GuardPC
  deriving DecidableEq

/-- Writes one thread's program counter. -/
def setPc (t : Bool) (s : GuardState) (p : GuardPC) : GuardState :=
  if t then { s with pc1 := p } else { s with pc0 := p }

/-- One atomic step of thread t in the guard (names.go:37-39): Load observes
the flag and either leaves the guard or proceeds to Store; Store sets the
flag and launches one refresh loop. -/
def guardStep (t : Bool) (s : GuardState) : GuardState :=
  match (if t then s.pc1 else s.pc0) with
  | .check => if s.haveRoutine then setPc t s .past else setPc t s .store
  | .store => setPc t { s with haveRoutine := true, loops := s.loops + 1 } .past
  | .past => s

/-- Runs a schedule, each element naming the thread that takes the next step. -/
def guardRun (s : GuardState) (sched : List Bool) : GuardState :=
  sched.foldl (fun s2 t => guardStep t s2) s

/-- Both threads start before the guard with the flag unset and no loop. -/
def guardInit : GuardState :=
  { haveRoutine := false, loops := 0, pc0 := .check, pc1 := .check }

theorem scanClients_spec (l : List DnsRR) (qn : List Char) (t : Nat) :
    (scanClients l qn t).1 = (match l.find? (fun e => equalFold e.Hdr.Name qn) with
      | some e => [{ e with Hdr := { e.Hdr with Ttl := t } }]
      | none => [])
  ∧ (scanClients l qn t).2 = l := by
  induction l with
  | nil => exact ⟨rfl, rfl⟩
  | cons a rest ih =>
    by_cases h : equalFold a.Hdr.Name qn = true
    · refine ⟨?_, ?_⟩ <;> simp [scanClients, List.find?, h]
    · have hb : equalFold a.Hdr.Name qn = false := by
        cases hx : equalFold a.Hdr.Name qn
        · rfl
        · exact absurd hx h
      refine ⟨?_, ?_⟩ <;> simp [scanClients, List.find?, hb, ih.1, ih.2]

theorem resolveQuestion_state (p : unifinames) (now : Nat) (q : Question) :
    (resolveQuestion p now q).2 = p := by
  by_cases h1 : q.Qclass ≠ classINET
  · simp [resolveQuestion, h1]
  · by_cases h2 : q.Qtype = typeA
    · by_cases h3 : shouldHandle p (q.Name.map goToLower) = true
      · simp [resolveQuestion, h1, h2, h3,
          (scanClients_spec p.aClients q.Name (u32sub p.Config.TTL (now - p.lastUpdate))).2]
      · simp [resolveQuestion, h1, h2, h3]
    · by_cases h4 : q.Qtype = typeAAAA
      · have hAA : ¬ typeAAAA = typeA := by decide
        by_cases h3 : shouldHandle p (q.Name.map goToLower) = true
        · simp [resolveQuestion, h1, hAA, h4, h3,
            (scanClients_spec p.aaaaClients q.Name (u32sub p.Config.TTL (now - p.lastUpdate))).2]
        · simp [resolveQuestion, h1, hAA, h4, h3]
      · simp [resolveQuestion, h1, h2, h4]

theorem resolveStep_eq (now : Nat) (acc : List DnsRR × unifinames) (q : Question) :
    resolveStep now acc q
      = (acc.1 ++ (resolveQuestion acc.2 now q).1, (resolveQuestion acc.2 now q).2) := rfl

theorem resolveFold_state (now : Nat) :
    ∀ (qs : List Question) (acc : List DnsRR) (p : unifinames),
    (qs.foldl (resolveStep now) (acc, p)).2 = p := by
  intro qs
  induction qs with
  | nil => intro acc p; rfl
  | cons q rest ih =>
    intro acc p
    rw [List.foldl_cons, resolveStep_eq]
    show (rest.foldl (resolveStep now) (_, (resolveQuestion p now q).2)).2 = p
    rw [resolveQuestion_state]
    exact ih _ p

/-- C9: answering a query never mutates the cached snapshot: the TTL
adjustment is applied to the per-iteration copy that Go's range loop binds,
so the plugin state (both cached record lists, every stored TTL, and all
other fields) is unchanged after resolve for all inputs. -/
theorem resolve_preserves_cache (p : unifinames) (now : Nat) (r : Msg) :
    (resolveGo p now r).2.2 = p := by
  simp only [resolveGo]
  split
  · rfl
  · split <;> exact resolveFold_state now r.Question [] p

/-- The configuration of the spec's concrete scenarios: network "lan" mapped
to home.arpa. (stored fully qualified, see the config model note), TTL 300,
hostname as display source. -/
def cfgScenario : config :=
  { TTL := 300
    Networks := [(("lan".data), ("home.arpa.".data))]
    UseNameAsHostname := false
    Debug := false }

/-- A concrete plugin state used by several witnesses and counterexamples. -/
def readyCexState : unifinames :=
  { Config := cfgScenario
    aClients := []
    aaaaClients := []
    lastUpdate := 5
    IsReady := false }

/-- C2 (amended): lastUpdate is governed by the refresh path: a background
refresh attempt (the update closure of ServeDNS) leaves lastUpdate unchanged
exactly when the fetch fails and sets it to the current time when it
succeeds; the eager readiness path (Ready), however, sets lastUpdate to the
current time unconditionally whenever the instance was not yet ready,
success or failure alike. -/
theorem lastUpdate_discipline (fq : List Char → Bool) (p : unifinames)
    (u : Except FetchErr Unit) (s : Except FetchErr (List Site))
    (c : List Site → Except FetchErr (List ClientEntry)) (now : Nat) :
    (updateAttempt fq p u s c now).lastUpdate
      = (if (getClientsGo fq p u s c).2.isSome then p.lastUpdate else now)
  ∧ (Ready fq p u s c now).1.lastUpdate = (if p.IsReady then p.lastUpdate else now) := by
  refine ⟨?_, ?_⟩
  · rcases u with e | u0
    · simp [updateAttempt, getClientsGo]
    · rcases s with e | sites
      · simp [updateAttempt, getClientsGo]
      · rcases hc : c sites with e | clients
        · simp [updateAttempt, getClientsGo, hc]
        · simp [updateAttempt, getClientsGo, hc]
  · by_cases hr : p.IsReady = true
    · simp [Ready, hr]
    · simp [Ready, hr]

/-- C2 counterexample: a failing eager readiness refresh (the upstream
client construction errors out) still overwrites lastUpdate with the
current time, so a failed attempt does not leave it unchanged. -/
theorem ready_overwrites_lastUpdate :
    ((getClientsGo (fun _ => false) readyCexState (Except.error ("boom".data))
        (Except.ok []) (fun _ => Except.ok [])).2).isSome = true
  ∧ (Ready (fun _ => false) readyCexState (Except.error ("boom".data))
        (Except.ok []) (fun _ => Except.ok []) 100).1.lastUpdate = 100
  ∧ readyCexState.lastUpdate = 5 := by
  exact ⟨rfl, rfl, rfl⟩

/-- C7: any upstream failure (client construction, site listing or client
listing) aborts the refresh with an error while the plugin state -- in
particular both cached record lists -- is returned exactly as it was, so
the previous snapshot stays live. -/
theorem getClients_failure_atomic (fq : List Char → Bool) (p : unifinames)
    (u : Except FetchErr Unit) (s : Except FetchErr (List Site))
    (c : List Site → Except FetchErr (List ClientEntry))
    (h : (getClientsGo fq p u s c).2.isSome = true) :
    (getClientsGo fq p u s c).1 = p := by
  rcases u with e | u0
  · rfl
  · rcases s with e | sites
    · rfl
    · rcases hc : c sites with e | clients
      · simp [getClientsGo, hc]
      · simp [getClientsGo, hc] at h

/-- Witness for C7 at a failing site listing. -/
theorem getClients_failure_atomic_witness :
    ((getClientsGo (fun _ => false) readyCexState (Except.ok ())
        (Except.error ("down".data)) (fun _ => Except.ok [])).2).isSome = true
  ∧ (getClientsGo (fun _ => false) readyCexState (Except.ok ())
        (Except.error ("down".data)) (fun _ => Except.ok [])).1 = readyCexState :=
  ⟨rfl, getClients_failure_atomic _ _ _ _ _ rfl⟩

theorem resolveQuestion_no_suffix (p : unifinames) (now : Nat) (q : Question)
    (h : shouldHandle p (q.Name.map goToLower) = false) :
    (resolveQuestion p now q).1 = [] := by
  by_cases h1 : q.Qclass ≠ classINET
  · simp [resolveQuestion, h1]
  · by_cases h2 : q.Qtype = typeA
    · simp [resolveQuestion, h1, h2, h]
    · by_cases h4 : q.Qtype = typeAAAA
      · have hAA : ¬ typeAAAA = typeA := by decide
        simp [resolveQuestion, h1, hAA, h4, h]
      · simp [resolveQuestion, h1, h2, h4]

theorem resolveFold_no_suffix (p : unifinames) (now : Nat) :
    ∀ (qs : List Question) (acc : List DnsRR),
    (∀ q ∈ qs, shouldHandle p (q.Name.map goToLower) = false) →
    (qs.foldl (resolveStep now) (acc, p)).1 = acc := by
  intro qs
  induction qs with
  | nil => intro acc h; rfl
  | cons q rest ih =>
    intro acc h
    rw [List.foldl_cons, resolveStep_eq]
    show (rest.foldl (resolveStep now)
      (acc ++ (resolveQuestion p now q).1, (resolveQuestion p now q).2)).1 = acc
    rw [resolveQuestion_state, resolveQuestion_no_suffix p now q (h q (List.mem_cons_self _ _)),
      List.append_nil]
    exact ih acc (fun q2 hq2 => h q2 (List.mem_cons_of_mem _ hq2))

/-- C8: a query with zero questions, or all of whose question names do not
end (case-insensitively) in any served suffix, is reported unanswered
regardless of the cache contents, so the caller falls through to the next
handler. -/
theorem resolve_falls_through (p : unifinames) (now : Nat) (r : Msg)
    (h : r.Question = []
       ∨ ∀ q ∈ r.Question, shouldHandle p (q.Name.map goToLower) = false) :
    (resolveGo p now r).1 = false := by
  simp only [resolveGo]
  by_cases hq : r.Question.length ≤ 0
  · rw [if_pos hq]
  · rw [if_neg hq]
    rcases h with h | h
    · exact absurd (by simp [h]) hq
    · have hfold := resolveFold_no_suffix p now r.Question [] h
      simp [hfold]

/-- A query with no questions, for witnesses. -/
def emptyMsg : Msg := { Question := [] }

/-- Witness for C8 at a query with zero questions. -/
theorem resolve_falls_through_witness :
    (emptyMsg.Question = []
      ∨ ∀ q ∈ emptyMsg.Question, shouldHandle readyCexState (q.Name.map goToLower) = false)
  ∧ (resolveGo readyCexState 0 emptyMsg).1 = false :=
  ⟨Or.inl rfl, resolve_falls_through readyCexState 0 emptyMsg (Or.inl rfl)⟩

theorem u32sub_of_le (a b : Nat) (h1 : b ≤ a) (h2 : a < 2 ^ 32) : u32sub a b = a - b := by
  have h3 : (2 : Nat) ^ 32 = 4294967296 := by norm_num
  rw [u32sub]
  rw [h3] at h2
  omega

/-- C3 (amended): a type-A or type-AAAA Internet-class question whose name
lies under a served suffix and matches a cached record yields exactly one
answer (the first matching record, TTL-adjusted on a copy).  The answer TTL
is the uint32 difference of the configured TTL and the whole seconds since
lastUpdate, i.e. it wraps modulo 2^32; whenever the elapsed time does not
exceed the configured TTL this equals configuredTTL - elapsed and is at most
the configured TTL (the unclamped arithmetic exceeds it otherwise, see the
counterexample). -/
theorem resolve_match_one_answer (p : unifinames) (now : Nat) (q : Question)
    (hcl : q.Qclass = classINET)
    (hty : (q.Qtype = typeA ∧ shouldHandle p (q.Name.map goToLower) = true
              ∧ (p.aClients.find? (fun e => equalFold e.Hdr.Name q.Name)).isSome = true)
         ∨ (q.Qtype = typeAAAA ∧ shouldHandle p (q.Name.map goToLower) = true
              ∧ (p.aaaaClients.find? (fun e => equalFold e.Hdr.Name q.Name)).isSome = true)) :
    (resolveQuestion p now q).1.length = 1
  ∧ (∀ r ∈ (resolveQuestion p now q).1,
        r.Hdr.Ttl = u32sub p.Config.TTL (now - p.lastUpdate)
      ∧ (p.Config.TTL < 2 ^ 32 → now - p.lastUpdate ≤ p.Config.TTL →
          r.Hdr.Ttl = p.Config.TTL - (now - p.lastUpdate) ∧ r.Hdr.Ttl ≤ p.Config.TTL))
  ∧ (∀ e, q.Qtype = typeA →
        p.aClients.find? (fun e2 => equalFold e2.Hdr.Name q.Name) = some e →
        (resolveQuestion p now q).1
          = [{ e with Hdr := { e.Hdr with Ttl := u32sub p.Config.TTL (now - p.lastUpdate) } }])
  ∧ (∀ e, q.Qtype = typeAAAA →
        p.aaaaClients.find? (fun e2 => equalFold e2.Hdr.Name q.Name) = some e →
        (resolveQuestion p now q).1
          = [{ e with Hdr := { e.Hdr with Ttl := u32sub p.Config.TTL (now - p.lastUpdate) } }]) := by
  have hne1 : ¬ q.Qclass ≠ classINET := by simp [hcl]
  rcases hty with ⟨h2, h3, h4⟩ | ⟨h2, h3, h4⟩
  · obtain ⟨e0, he0⟩ := Option.isSome_iff_exists.mp h4
    have hres : (resolveQuestion p now q).1
        = [{ e0 with Hdr := { e0.Hdr with Ttl := u32sub p.Config.TTL (now - p.lastUpdate) } }] := by
      simp only [resolveQuestion, hne1, if_neg, ite_false, if_pos, h2, h3, ite_true]
      rw [(scanClients_spec p.aClients q.Name (u32sub p.Config.TTL (now - p.lastUpdate))).1, he0]
    refine ⟨by rw [hres]; rfl, ?_, ?_, ?_⟩
    · intro r hr
      rw [hres] at hr
      rcases List.mem_singleton.mp hr with rfl
      refine ⟨rfl, ?_⟩
      intro hTTL hle
      rw [u32sub_of_le _ _ hle hTTL]
      exact ⟨rfl, Nat.sub_le _ _⟩
    · intro e _ hfind
      have : e0 = e := Option.some.inj (he0.symm.trans hfind)
      rw [hres, this]
    · intro e heA _
      rw [h2] at heA
      exact absurd heA (by decide)
  · have hA : ¬ q.Qtype = typeA := by rw [h2]; decide
    obtain ⟨e0, he0⟩ := Option.isSome_iff_exists.mp h4
    have hres : (resolveQuestion p now q).1
        = [{ e0 with Hdr := { e0.Hdr with Ttl := u32sub p.Config.TTL (now - p.lastUpdate) } }] := by
      have hAA : ¬ typeAAAA = typeA := by decide
      simp only [resolveQuestion, hne1, hA, hAA, if_neg, ite_false, if_pos, h2, h3, ite_true]
      rw [(scanClients_spec p.aaaaClients q.Name (u32sub p.Config.TTL (now - p.lastUpdate))).1, he0]
    refine ⟨by rw [hres]; rfl, ?_, ?_, ?_⟩
    · intro r hr
      rw [hres] at hr
      rcases List.mem_singleton.mp hr with rfl
      refine ⟨rfl, ?_⟩
      intro hTTL hle
      rw [u32sub_of_le _ _ hle hTTL]
      exact ⟨rfl, Nat.sub_le _ _⟩
    · intro e heA _
      rw [h2] at heA
      exact absurd heA (by decide)
    · intro e _ hfind
      have : e0 = e := Option.some.inj (he0.symm.trans hfind)
      rw [hres, this]

/-- The cached A record of scenario 1 as getClients builds it. -/
def tvRec : DnsRR :=
  { Hdr := { Name := ("living-room-tv.home.arpa.".data)
             Rrtype := typeA
             Class := classINET
             Ttl := 0
             Rdlength := 0 }
    addr := IPAddr.v4 192 168 1 20 }

/-- A state holding scenario 1's record, refreshed at time 0. -/
def stMatch : unifinames :=
  { Config := cfgScenario
    aClients := [tvRec]
    aaaaClients := []
    lastUpdate := 0
    IsReady := true }

/-- The type-A question for scenario 1's name. -/
def qTv : Question :=
  { Name := ("living-room-tv.home.arpa.".data)
    Qtype := typeA
    Qclass := classINET }

/-- C3 counterexample: with configured TTL 300 and a cache 301 seconds old,
the matched in-suffix Internet-class A question is answered with the wrapped
uint32 TTL 4294967295, which exceeds the configured TTL, refuting the
claimed bound (the code does not clamp). -/
theorem resolve_ttl_wrap :
    qTv.Qclass = classINET
  ∧ shouldHandle stMatch (qTv.Name.map goToLower) = true
  ∧ (stMatch.aClients.find? (fun e => equalFold e.Hdr.Name qTv.Name)).isSome = true
  ∧ (resolveQuestion stMatch 301 qTv).1.map (fun r => r.Hdr.Ttl) = [4294967295]
  ∧ decide (4294967295 ≤ stMatch.Config.TTL) = false := by
  exact ⟨rfl, by decide, by decide, by decide, by decide⟩

/-- Witness for C3 (amended) at a cache 100 seconds old: one answer with
TTL 200 = 300 - 100. -/
theorem resolve_match_one_answer_witness :
    qTv.Qclass = classINET
  ∧ (qTv.Qtype = typeA ∧ shouldHandle stMatch (qTv.Name.map goToLower) = true
      ∧ (stMatch.aClients.find? (fun e => equalFold e.Hdr.Name qTv.Name)).isSome = true)
  ∧ ((resolveQuestion stMatch 100 qTv).1.length = 1
    ∧ (∀ r ∈ (resolveQuestion stMatch 100 qTv).1,
          r.Hdr.Ttl = u32sub stMatch.Config.TTL (100 - stMatch.lastUpdate)
        ∧ (stMatch.Config.TTL < 2 ^ 32 → 100 - stMatch.lastUpdate ≤ stMatch.Config.TTL →
            r.Hdr.Ttl = stMatch.Config.TTL - (100 - stMatch.lastUpdate)
            ∧ r.Hdr.Ttl ≤ stMatch.Config.TTL))
    ∧ (∀ e, qTv.Qtype = typeA →
          stMatch.aClients.find? (fun e2 => equalFold e2.Hdr.Name qTv.Name) = some e →
          (resolveQuestion stMatch 100 qTv).1
            = [{ e with Hdr := { e.Hdr with
                Ttl := u32sub stMatch.Config.TTL (100 - stMatch.lastUpdate) } }])
    ∧ (∀ e, qTv.Qtype = typeAAAA →
          stMatch.aaaaClients.find? (fun e2 => equalFold e2.Hdr.Name qTv.Name) = some e →
          (resolveQuestion stMatch 100 qTv).1
            = [{ e with Hdr := { e.Hdr with
                Ttl := u32sub stMatch.Config.TTL (100 - stMatch.lastUpdate) } }])) :=
  ⟨rfl, ⟨rfl, by decide, by decide⟩,
    resolve_match_one_answer stMatch 100 qTv rfl (Or.inl ⟨rfl, by decide, by decide⟩)⟩

theorem processEntry_config (fq : List Char → Bool) (p : unifinames) (entry : ClientEntry) :
    (processEntry fq p entry).Config = p.Config := by
  simp only [processEntry]
  repeat' split
  all_goals rfl

theorem processEntry_skip (fq : List Char → Bool) (p : unifinames) (entry : ClientEntry)
    (h : (if p.Config.UseNameAsHostname then entry.Name else entry.Hostname) = []
       ∨ sanitizeName (if p.Config.UseNameAsHostname then entry.Name else entry.Hostname) = []
       ∨ parseIP entry.IP = none
       ∨ lookupNetwork p.Config.Networks (entry.Network.map goToLower) = none) :
    processEntry fq p entry = p := by
  rcases h with h | h | h | h
  · by_cases ht : p.Config.UseNameAsHostname = true
    · rw [if_pos ht] at h; simp [processEntry, ht, h]
    · rw [if_neg ht] at h; simp [processEntry, ht, h]
  · by_cases ht : p.Config.UseNameAsHostname = true
    · rw [if_pos ht] at h
      by_cases hn : entry.Name = []
      · simp [processEntry, ht, hn]
      · simp [processEntry, ht, hn, h]
    · rw [if_neg ht] at h
      by_cases hn : entry.Hostname = []
      · simp [processEntry, ht, hn]
      · simp [processEntry, ht, hn, h]
  · simp [processEntry, h]
  · rcases hip : parseIP entry.IP with _ | ip
    · simp [processEntry, hip]
    · simp [processEntry, hip, h]

theorem foldl_processEntry_config (fq : List Char → Bool) :
    ∀ (l : List ClientEntry) (p : unifinames),
    (l.foldl (processEntry fq) p).Config = p.Config := by
  intro l
  induction l with
  | nil => intro p; rfl
  | cons e rest ih =>
    intro p
    rw [List.foldl_cons, ih, processEntry_config]

/-- C6: an upstream entry whose selected display field is empty (in
particular an empty hostname while the toggle selects hostname, even with a
nonempty name field), or whose sanitized name is empty, or whose IP does not
parse, or whose network has no configured domain mapping, contributes no
record: removing the entry from the fetched list leaves the built snapshot
unchanged. -/
theorem build_skips_entry (fq : List Char → Bool) (p : unifinames)
    (xs ys : List ClientEntry) (entry : ClientEntry)
    (h : (if p.Config.UseNameAsHostname then entry.Name else entry.Hostname) = []
       ∨ sanitizeName (if p.Config.UseNameAsHostname then entry.Name else entry.Hostname) = []
       ∨ parseIP entry.IP = none
       ∨ lookupNetwork p.Config.Networks (entry.Network.map goToLower) = none) :
    (xs ++ entry :: ys).foldl (processEntry fq) p = (xs ++ ys).foldl (processEntry fq) p := by
  rw [List.foldl_append, List.foldl_append, List.foldl_cons]
  congr 1
  apply processEntry_skip
  rw [foldl_processEntry_config fq xs p]
  exact h

/-- Scenario 2's printer entry: empty hostname, nonempty name. -/
def printerEntry : ClientEntry :=
  { Name := ("Printer".data)
    Hostname := []
    IP := ("192.168.1.30".data)
    Network := ("lan".data) }

/-- Witness for C6: with the hostname toggle, scenario 2's printer entry is
skipped entirely even though its name field is present. -/
theorem build_skips_entry_witness :
    ((if readyCexState.Config.UseNameAsHostname then printerEntry.Name
        else printerEntry.Hostname) = []
      ∨ sanitizeName (if readyCexState.Config.UseNameAsHostname then printerEntry.Name
        else printerEntry.Hostname) = []
      ∨ parseIP printerEntry.IP = none
      ∨ lookupNetwork readyCexState.Config.Networks (printerEntry.Network.map goToLower) = none)
  ∧ ([] ++ printerEntry :: []).foldl (processEntry (fun _ => false)) readyCexState
      = ([] ++ []).foldl (processEntry (fun _ => false)) readyCexState :=
  ⟨Or.inl (by decide),
    build_skips_entry (fun _ => false) readyCexState [] [] printerEntry (Or.inl (by decide))⟩

/-- C10 counterexample: under the interleaving Load0, Load1, Store0+launch0,
Store1+launch1 both concurrent first queries observe the haveRoutine flag
unset, so two refresh loops are launched: the Load-then-Store guard is not
an atomic test-and-set. -/
theorem guard_double_launch :
    guardRun guardInit [false, true, false, true]
      = { haveRoutine := true, loops := 2, pc0 := GuardPC.past, pc1 := GuardPC.past } := by
  decide

theorem guardRun_cons (s : GuardState) (t : Bool) (sched : List Bool) :
    guardRun s (t :: sched) = guardRun (guardStep t s) sched := rfl

theorem guardRun_append (s : GuardState) (l1 l2 : List Bool) :
    guardRun s (l1 ++ l2) = guardRun (guardRun s l1) l2 := by
  simp [guardRun, List.foldl_append]

theorem setPc_loops (t : Bool) (s : GuardState) (p2 : GuardPC) :
    (setPc t s p2).loops = s.loops := by
  cases t <;> rfl

theorem setPc_flag (t : Bool) (s : GuardState) (p2 : GuardPC) :
    (setPc t s p2).haveRoutine = s.haveRoutine := by
  cases t <;> rfl

theorem guardRun_stable : ∀ (sched : List Bool) (s : GuardState),
    s.haveRoutine = true → s.pc0 ≠ GuardPC.store → s.pc1 ≠ GuardPC.store →
    (guardRun s sched).loops = s.loops := by
  intro sched
  induction sched with
  | nil => intro s _ _ _; rfl
  | cons t rest ih =>
    intro s h1 h2 h3
    have hstep : guardStep t s = setPc t s GuardPC.past ∨ guardStep t s = s := by
      cases t
      · cases hpc : s.pc0 with
        | check => left; simp [guardStep, hpc, h1]
        | store => exact absurd hpc h2
        | past => right; simp [guardStep, hpc]
      · cases hpc : s.pc1 with
        | check => left; simp [guardStep, hpc, h1]
        | store => exact absurd hpc h3
        | past => right; simp [guardStep, hpc]
    rcases hstep with he | he
    · have hf : (setPc t s GuardPC.past).haveRoutine = true := by rw [setPc_flag]; exact h1
      have hp0 : (setPc t s GuardPC.past).pc0 ≠ GuardPC.store := by
        cases t
        · simp [setPc]
        · simpa [setPc] using h2
      have hp1 : (setPc t s GuardPC.past).pc1 ≠ GuardPC.store := by
        cases t
        · simpa [setPc] using h3
        · simp [setPc]
      rw [guardRun_cons, he, ih _ hf hp0 hp1, setPc_loops]
    · rw [guardRun_cons, he]
      exact ih s h1 h2 h3

/-- C10 (amended): the haveRoutine flag is a Load-then-Store gate rather
than an atomic test-and-set: a query that observes the flag set launches
nothing, so when one first query completes the guard before the other
starts, exactly one refresh loop is ever launched -- but two overlapping
first queries can both observe the flag unset and launch two loops (see the
counterexample). -/
theorem guard_serialized_single_launch (rest : List Bool) :
    (guardRun guardInit (false :: false :: rest)).loops = 1 := by
  have h2 : guardRun guardInit [false, false]
      = { haveRoutine := true, loops := 1, pc0 := GuardPC.past, pc1 := GuardPC.check } := by
    decide
  rw [show (false :: false :: rest) = [false, false] ++ rest from rfl,
    guardRun_append, h2]
  exact guardRun_stable rest _ rfl (by simp) (by simp)

/-- Scenario 1's upstream client: hostname "Living Room TV" on network lan. -/
def tvEntry : ClientEntry :=
  { Name := []
    Hostname := ("Living Room TV".data)
    IP := ("192.168.1.20".data)
    Network := ("lan".data) }

/-- The pre-first-refresh plugin state for the scenarios. -/
def initialState : unifinames :=
  { Config := cfgScenario
    aClients := []
    aaaaClients := []
    lastUpdate := 0
    IsReady := false }

/-- The type-A query of scenario 1 (one question, Internet class). -/
def tvQuery : Msg := { Question := [qTv] }

/-- C1: end-to-end scenario 1: with network "lan" mapped to domain home.arpa.
and TTL 300 (hostname as display source), one successful refresh over the
single upstream client turns it into the record living-room-tv.home.arpa.,
and a type-A query for that name is answered with exactly one A record
carrying address 192.168.1.20. -/
theorem scenario_one :
    (resolveGo (updateAttempt isFQDNCheck initialState (Except.ok ()) (Except.ok [])
        (fun _ => Except.ok [tvEntry]) 0) 0 tvQuery).1 = true
  ∧ ((resolveGo (updateAttempt isFQDNCheck initialState (Except.ok ()) (Except.ok [])
        (fun _ => Except.ok [tvEntry]) 0) 0 tvQuery).2.1).map (fun r => (r.Hdr.Rrtype, r.addr))
      = [(typeA, IPAddr.v4 192 168 1 20)] := by
  exact ⟨by decide, by decide⟩
